import Mathlib

set_option maxRecDepth 4000

/-!
Shallow embedding of the tournament-standings parser
(`pokemon_tournament_parser_v2.py`) and of the deck win-rate aggregation
shared by `app.py` and `streamlit_app.py`, together with proofs about the
properties of these functions.
-/

/-- Characters treated as whitespace by Python's `str.strip()` and by the
regex class `\s` (ASCII fragment; the repository's data is ASCII). -/
def pyIsSpace (c : Char) : Bool :=
  c = ' ' || c = '\t' || c = '\n' || c = '\r' || c = '\x0b' || c = '\x0c'

/-- Python `str.strip()` on a character list: drop whitespace at both ends. -/
def stripList (l : List Char) : List Char :=
  ((l.dropWhile pyIsSpace).reverse.dropWhile pyIsSpace).reverse

/-- Python `str.strip()`. -/
def stripS (s : String) : String := String.mk (stripList s.data)

/-- Python substring test `pat in s`, on character lists. -/
def containsSub (pat : List Char) : List Char → Bool
  | [] => pat.isEmpty
  | c :: cs => pat.isPrefixOf (c :: cs) || containsSub pat cs

/-- Python `re.findall(r'\d+', s)`: the maximal runs of decimal digits, in order
(`cur` is the reversed run being accumulated). -/
def digitRunsAux : List Char → List Char → List (List Char)
  | [], cur => if cur.isEmpty then [] else [cur.reverse]
  | c :: cs, cur =>
    if c.isDigit then digitRunsAux cs (c :: cur)
    else if cur.isEmpty then digitRunsAux cs [] else cur.reverse :: digitRunsAux cs []

/-- Python `re.findall(r'\d+', s)`. -/
def digitRuns (l : List Char) : List (List Char) := digitRunsAux l []

/-- Python `int(·)` on a run of decimal digits. -/
def digitsToNat (l : List Char) : Nat := l.foldl (fun n c => 10 * n + (c.toNat - 48)) 0

/-- Python `record_str.replace(' drop', '')`: remove every non-overlapping,
leftmost-first occurrence of the five characters `" drop"`. -/
def removeDrop : List Char → List Char
  | ' ' :: 'd' :: 'r' :: 'o' :: 'p' :: rest => removeDrop rest
  | c :: rest => c :: removeDrop rest
  | [] => []

/-- Function `parse_record` (parser lines 12-28): blank input short-circuits to
`(0, 0, 0, '')`; otherwise the digit runs of the `' drop'`-free, stripped
text decide wins/losses/ties, and the fourth component is the input. -/
def parse_record (s : String) : Nat × Nat × Nat × String :=
  if s = "" ∨ stripS s = "" then (0, 0, 0, "")
  else
    match digitRuns (stripList (removeDrop s.data)) with
    | a :: b :: c :: _ => (digitsToNat a, digitsToNat b, digitsToNat c, s)
    | [a, b] => (digitsToNat a, digitsToNat b, 0, s)
    | _ => (0, 0, 0, s)

/-- Exponent suffix of the model of Python `float()`: an optional sign
followed by at least one digit, consuming the whole remaining text.
Returns the sign (`true` = negative) and magnitude of the exponent. -/
def pyFloatExpParse (t : List Char) : Option (Bool × Nat) :=
  let se : Bool × List Char :=
    match t with
    | '+' :: u => (false, u)
    | '-' :: u => (true, u)
    | u => (false, u)
  let ed := se.2.takeWhile Char.isDigit
  if ed.isEmpty then none
  else if (se.2.dropWhile Char.isDigit).isEmpty then some (se.1, digitsToNat ed)
  else none

/-- The rational value `±(ip.fp) · 10^(±emag)` of a decimal literal with
integer digits `ip`, fraction digits `fp`, mantissa sign `sneg` and exponent
sign/magnitude `eneg`/`emag`. -/
def pyFloatCore (sneg : Bool) (ip fp : List Char) (eneg : Bool) (emag : Nat) : ℚ :=
  let n : Nat := digitsToNat (ip ++ fp)
  let num : Int := if sneg then -(n : Int) else (n : Int)
  if eneg then mkRat num (10 ^ (fp.length + emag))
  else mkRat (num * (10 : Int) ^ emag) (10 ^ fp.length)

/-- Model of Python `float()` restricted to finite decimal literals: optional
sign, digits with an optional fractional part, optional exponent.  Underscore
digit separators and the `inf`/`nan` spellings are modelled as conversion
failures; no input in this development exercises them. -/
def pyFloatList (l : List Char) : Option ℚ :=
  let sl : Bool × List Char :=
    match l with
    | '+' :: t => (false, t)
    | '-' :: t => (true, t)
    | t => (false, t)
  let ip := sl.2.takeWhile Char.isDigit
  let l2 := sl.2.dropWhile Char.isDigit
  let fl : List Char × List Char :=
    match l2 with
    | '.' :: t => (t.takeWhile Char.isDigit, t.dropWhile Char.isDigit)
    | t => ([], t)
  if ip.isEmpty && fl.1.isEmpty then none
  else
    match fl.2 with
    | [] => some (pyFloatCore sl.1 ip fl.1 false 0)
    | 'e' :: t => (pyFloatExpParse t).map (fun e => pyFloatCore sl.1 ip fl.1 e.1 e.2)
    | 'E' :: t => (pyFloatExpParse t).map (fun e => pyFloatCore sl.1 ip fl.1 e.1 e.2)
    | _ => none

/-- Function `parse_percentage` (parser lines 31-39): blank input yields the empty
value (modelled as `none`); otherwise every `'%'` is removed, the result is
stripped and converted, and a conversion failure again yields `none`. -/
def parse_percentage (s : String) : Option ℚ :=
  if s = "" ∨ stripS s = "" then none
  else pyFloatList (stripList (s.data.filter (fun c => c != '%')))

/-- The `'Top Cut end' in line or 'Day 2 end' in line` test (parser line 69). -/
def isMarker (line : String) : Bool :=
  containsSub "Top Cut end".data line.data || containsSub "Day 2 end".data line.data

/-- Python `re.match(r'^\d+$', line)`: the line is one or more decimal digits. -/
def isAllDigits (s : String) : Bool := !s.data.isEmpty && s.data.all Char.isDigit

/-- The `while i < len(lines) and not lines[i].strip(): i += 1` loops of the
parser: the first index `j ≥ i` whose line is non-blank, capped at
`lines.length`. -/
def skipBlank (lines : List String) (i : Nat) : Nat :=
  i + ((lines.drop i).takeWhile (fun s => stripS s == "")).length

/-- Separator match of `re.split(r'\t+|\s{2,}', ·)` at the head of `l`: the
leftmost-first alternation takes a greedy run of tabs when the head is a tab,
else a greedy run of at least two whitespace characters. -/
def sepLen (l : List Char) : Option Nat :=
  match l with
  | [] => none
  | c :: _ =>
    if c = '\t' then some ((l.takeWhile (fun x => x == '\t')).length)
    else if 2 ≤ (l.takeWhile pyIsSpace).length then some ((l.takeWhile pyIsSpace).length)
    else none

/-- Python `re.split(r'\t+|\s{2,}', ·)`, scanning left to right.  `fuel` bounds the
scan; `l.length` always suffices since a separator consumes at least one
character. -/
def splitGo : Nat → List Char → List Char → List (List Char)
  | _, acc, [] => [acc.reverse]
  | 0, acc, l => [acc.reverse ++ l]
  | fuel+1, acc, c :: cs =>
    match sepLen (c :: cs) with
    | some n => acc.reverse :: splitGo fuel [] ((c :: cs).drop n)
    | none => splitGo fuel (c :: acc) cs

/-- Python `re.split(r'\t+|\s{2,}', stats_line)` (parser line 112). -/
def splitStats (l : List Char) : List (List Char) := splitGo l.length [] l

/-- The comprehension `[p.strip() for p in re.split(...) if p.strip()]` (parser lines 112-113). -/
def statsFields (s : String) : List (List Char) :=
  ((splitStats s.data).map stripList).filter (fun p => !p.isEmpty)

/-- One parsed tournament entry: the dict built at parser lines 128-140. -/
structure Entry where
  Placement : String
  Name : String
  Country : String
  Points : String
  Wins : Nat
  Losses : Nat
  Ties : Nat
  Record : String
  OPW_Percent : Option ℚ
  OOPW_Percent : Option ℚ
  Deck : String
deriving DecidableEq, Repr

/-- The main scan loop of `parse_multiline_format` (parser lines 60-146), as a
cursor `i` over `lines`.  `fuel` bounds the number of loop iterations;
`lines.length + 1` always suffices because every iteration advances the
cursor (proved below). -/
def scanGo (lines : List String) : Nat → Nat → List Entry
  | 0, _ => []
  | fuel+1, i =>
    if h : i < lines.length then
      let line := stripS lines[i]
      if line = "" then scanGo lines fuel (i+1)
      else if isMarker line then scanGo lines fuel (i+1)
      else if isAllDigits line then
        let i1 := skipBlank lines (i+1)
        if h1 : i1 < lines.length then
          let name := stripS lines[i1]
          let i2 := skipBlank lines (i1+1)
          if h2 : i2 < lines.length then
            let country := stripS lines[i2]
            let i3 := skipBlank lines (i2+1)
            if h3 : i3 < lines.length then
              let stats_line := stripS lines[i3]
              let i4 := skipBlank lines (i3+1)
              let deck := if h4 : i4 < lines.length then stripS lines[i4] else ""
              let rest := scanGo lines fuel (i4+1)
              match statsFields stats_line with
              | points :: record :: opw :: oopw :: _ =>
                { Placement := line, Name := name, Country := country,
                  Points := String.mk points,
                  Wins := (parse_record (String.mk record)).1,
                  Losses := (parse_record (String.mk record)).2.1,
                  Ties := (parse_record (String.mk record)).2.2.1,
                  Record := (parse_record (String.mk record)).2.2.2,
                  OPW_Percent := parse_percentage (String.mk opw),
                  OOPW_Percent := parse_percentage (String.mk oopw),
                  Deck := deck } :: rest
              | _ => rest
            else []
          else []
        else []
      else scanGo lines fuel (i+1)
    else []

/-- Header search (parser lines 56-58): the index of the first line containing
`"Name"`, or `lines.length` when none does. -/
def findHeader (lines : List String) : Nat :=
  (lines.takeWhile (fun s => !containsSub "Name".data s.data)).length

/-- Function `parse_multiline_format` (parser lines 42-146). -/
def parse_multiline_format (lines : List String) : List Entry :=
  scanGo lines (lines.length + 1) (findHeader lines + 1)

/-- The input line sequence of the spec's end-to-end scenario. -/
def demoLines : List String :=
  ["Name\tCountry\tStats", "1", "Ash Ketchum", "USA",
   "45\t15 - 2 - 1\t59.82%\t61.10%", "Charizard Ex", "", "2", "Misty", "UK",
   "42\t14 - 3 - 1\t55.00%\t58.00%", "Blastoise Ex"]

/-- Input in which a `"Top Cut end"` line sits right after a placement line
(inside a block) and a `"Day 2 end"` line sits between two entries (at the
top-level scan position). -/
def demoC10 : List String :=
  ["Name", "1", "Top Cut end", "USA", "10\t1 - 0 - 0\t50%\t50%", "DeckX", "",
   "Day 2 end", "2", "Misty", "UK", "42\t14 - 3 - 1\t55.00%\t58.00%",
   "Blastoise Ex"]

/-- Input whose first entry block has a stats line with only three fields
(missing OOPW%), followed by a fully well-formed second entry. -/
def demoC3 : List String :=
  ["Name", "1", "Ash Ketchum", "USA", "45\t15 - 2 - 1\t59.82%", "Charizard Ex",
   "", "2", "Misty", "UK", "42\t14 - 3 - 1\t55.00%\t58.00%", "Blastoise Ex"]

/-- A minimal well-formed input and its single parsed entry. -/
def demoTiny : List String := ["Name", "1", "A", "B", "1\t1 - 0\t50%\t50%", "D"]

/-- The entry `parse_multiline_format demoTiny` produces. -/
def demoTinyEntry : Entry :=
  { Placement := "1", Name := "A", Country := "B", Points := "1", Wins := 1,
    Losses := 0, Ties := 0, Record := "1 - 0", OPW_Percent := some 50,
    OOPW_Percent := some 50, Deck := "D" }

/-- Per-deck aggregate row of `app.py` `get_winrate_stats` (lines 113-141)
and of the identical `streamlit_app.py` `deck_stats` pipeline (lines
125-146): player count, summed wins/losses/ties, their total, and the
win-rate lambda `(total_wins + 0.5 * total_ties) / total_matches * 100 if
total_matches > 0 else 0`. -/
structure DeckStat where
  Deck : String
  player_count : Nat
  total_wins : Nat
  total_losses : Nat
  total_ties : Nat
  total_matches : Nat
  win_rate : ℚ
deriving Repr

/-- The distinct deck names (group keys of `df.groupby('Deck')`), first
occurrence first. -/
def dedupFirstAux (seen : List String) : List String → List String
  | [] => []
  | d :: ds =>
    if seen.contains d then dedupFirstAux seen ds
    else d :: dedupFirstAux (d :: seen) ds

/-- The aggregate row for one deck group. -/
def mkDeckStat (es : List Entry) (d : String) : DeckStat :=
  let g := es.filter (fun e => e.Deck == d)
  let w := (g.map Entry.Wins).sum
  let l := (g.map Entry.Losses).sum
  let t := (g.map Entry.Ties).sum
  let m := w + l + t
  { Deck := d, player_count := g.length, total_wins := w, total_losses := l,
    total_ties := t, total_matches := m,
    win_rate := if 0 < m then ((w : ℚ) + (1/2) * (t : ℚ)) / (m : ℚ) * 100 else 0 }

/-- The group-by-deck aggregation: one row per distinct deck. -/
def deck_stats (es : List Entry) : List DeckStat :=
  (dedupFirstAux [] (es.map Entry.Deck)).map (mkDeckStat es)

/-- A one-row table: one win, one loss, no ties, for deck `"DeckA"`. -/
def demoEntry6 : Entry :=
  { Placement := "1", Name := "A", Country := "X", Points := "3", Wins := 1,
    Losses := 1, Ties := 0, Record := "1 - 1", OPW_Percent := none,
    OOPW_Percent := none, Deck := "DeckA" }

/-- The claim's literal reading of `parse_percentage`: strip surrounding
whitespace and one trailing percent sign, then attempt conversion. -/
def parse_percentage_claimed (s : String) : Option ℚ :=
  if s.data.all pyIsSpace then none
  else
    let t := stripList s.data
    let t' := if t.getLast? = some '%' then t.dropLast else t
    pyFloatList (stripList t')

/-- Python `str.replace('%', '')`, written as direct recursion (the amended
spec text), to compare with the `List.filter` form inside
`parse_percentage`. -/
def removePct : List Char → List Char
  | [] => []
  | c :: cs => if c = '%' then removePct cs else c :: removePct cs

/-- Variant of the scan loop in which every line access goes through the
fallible `lines[_]?` and an out-of-range access aborts the whole scan with
`none` (modelling a Python `IndexError`).  The parser's own `i < len(lines)`
guards make the failure case unreachable
(proved below). -/
def scanGoE (lines : List String) : Nat → Nat → Option (List Entry)
  | 0, _ => some []
  | fuel+1, i =>
    if i < lines.length then
      match lines[i]? with
      | none => none
      | some raw =>
        let line := stripS raw
        if line = "" then scanGoE lines fuel (i+1)
        else if isMarker line then scanGoE lines fuel (i+1)
        else if isAllDigits line then
          let i1 := skipBlank lines (i+1)
          if i1 < lines.length then
            match lines[i1]? with
            | none => none
            | some rawName =>
              let name := stripS rawName
              let i2 := skipBlank lines (i1+1)
              if i2 < lines.length then
                match lines[i2]? with
                | none => none
                | some rawCountry =>
                  let country := stripS rawCountry
                  let i3 := skipBlank lines (i2+1)
                  if i3 < lines.length then
                    match lines[i3]? with
                    | none => none
                    | some rawStats =>
                      let stats_line := stripS rawStats
                      let i4 := skipBlank lines (i3+1)
                      let deckE : Option String :=
                        if i4 < lines.length then
                          match lines[i4]? with
                          | none => none
                          | some rawDeck => some (stripS rawDeck)
                        else some ""
                      match deckE with
                      | none => none
                      | some deck =>
                        match scanGoE lines fuel (i4+1) with
                        | none => none
                        | some rest =>
                          match statsFields stats_line with
                          | points :: record :: opw :: oopw :: _ =>
                            some
                              ({ Placement := line, Name := name,
                                 Country := country, Points := String.mk points,
                                 Wins := (parse_record (String.mk record)).1,
                                 Losses := (parse_record (String.mk record)).2.1,
                                 Ties := (parse_record (String.mk record)).2.2.1,
                                 Record := (parse_record (String.mk record)).2.2.2,
                                 OPW_Percent := parse_percentage (String.mk opw),
                                 OOPW_Percent := parse_percentage (String.mk oopw),
                                 Deck := deck } :: rest)
                          | _ => some rest
                  else some []
              else some []
          else some []
        else scanGoE lines fuel (i+1)
    else some []

/-- The whole parser over the fallible-access scan. -/
def parse_multiline_formatE (lines : List String) : Option (List Entry) :=
  scanGoE lines (lines.length + 1) (findHeader lines + 1)

/-! ### C1: the end-to-end scenario -/

/-- C1: on the spec's end-to-end input, `parse_multiline_format` emits
exactly two entries, in order, with Placement `"1"`/`"2"`, Name
`"Ash Ketchum"`/`"Misty"`, Wins `15`/`14` and Deck
`"Charizard Ex"`/`"Blastoise Ex"`. -/
theorem parse_demo_two_entries :
    (parse_multiline_format demoLines).length = 2
    ∧ (parse_multiline_format demoLines).map Entry.Placement = ["1", "2"]
    ∧ (parse_multiline_format demoLines).map Entry.Name = ["Ash Ketchum", "Misty"]
    ∧ (parse_multiline_format demoLines).map Entry.Wins = [15, 14]
    ∧ (parse_multiline_format demoLines).map Entry.Deck = ["Charizard Ex", "Blastoise Ex"] := by
  exact ⟨by decide, by decide, by decide, by decide, by decide⟩

/-! ### Digit lines are neither blank nor marker lines -/

lemma isAllDigits_ne_empty {s : String} (hd : isAllDigits s = true) : s ≠ "" := by
  intro h0
  rw [h0] at hd
  exact absurd hd (by decide)

lemma containsSub_head_not_digit (a : Char) (p l : List Char)
    (hl : ∀ c ∈ l, c.isDigit = true) (ha : a.isDigit = false) :
    containsSub (a :: p) l = false := by
  induction l with
  | nil => rfl
  | cons c cs ih =>
    rw [containsSub]
    have hc : c.isDigit = true := hl c (by simp)
    have hac : (a == c) = false := by
      rw [beq_eq_false_iff_ne]
      intro heq
      rw [heq, hc] at ha
      exact Bool.noConfusion ha
    have hpre : (a :: p).isPrefixOf (c :: cs) = false := by
      show (a == c && p.isPrefixOf cs) = false
      rw [hac, Bool.false_and]
    rw [hpre, ih fun x hx => hl x (List.mem_cons_of_mem _ hx), Bool.or_false]

lemma isMarker_of_digits {s : String} (hd : isAllDigits s = true) :
    isMarker s = false := by
  have hall : ∀ c ∈ s.data, c.isDigit = true := by
    simp only [isAllDigits, Bool.and_eq_true, List.all_eq_true] at hd
    exact hd.2
  have h1 : containsSub "Top Cut end".data s.data = false := by
    rw [show "Top Cut end".data = 'T' :: "op Cut end".data from rfl]
    exact containsSub_head_not_digit 'T' _ _ hall (by decide)
  have h2 : containsSub "Day 2 end".data s.data = false := by
    rw [show "Day 2 end".data = 'D' :: "ay 2 end".data from rfl]
    exact containsSub_head_not_digit 'D' _ _ hall (by decide)
  rw [isMarker, h1, h2]
  rfl

/-! ### C10: markers are skipped only at the top-level scan position -/

/-- C10: a line whose stripped text contains a marker is skipped when the
scan is at the top-level position expecting an entry start; but when such a
line is the next non-blank line inside an entry block it is consumed as that
block's field value — on `demoC10` the `"Top Cut end"` line right after the
placement becomes the entry's Name, while the top-level `"Day 2 end"` line
between the entries is skipped and produces nothing. -/
theorem marker_lines_top_level_only :
    (∀ (lines : List String) (fuel i : Nat) (h : i < lines.length),
        isMarker (stripS lines[i]) = true →
        scanGo lines (fuel+1) i = scanGo lines fuel (i+1))
    ∧ (parse_multiline_format demoC10).map (fun e => (e.Placement, e.Name)) =
        [("1", "Top Cut end"), ("2", "Misty")] := by
  refine ⟨?_, by decide⟩
  intro lines fuel i h hm
  have hne : stripS lines[i] ≠ "" := by
    intro h0
    rw [h0] at hm
    exact absurd hm (by decide)
  simp only [scanGo]
  rw [dif_pos h, if_neg hne, if_pos hm]

theorem marker_lines_top_level_only_witness :
    scanGo demoC10 13 7 = scanGo demoC10 12 8 :=
  marker_lines_top_level_only.1 demoC10 12 7 (by decide) (by decide)

/-! ### C3: a short stats line silently discards the candidate entry -/

/-- C3: whenever a recognized entry block's stats line splits into fewer
than four fields, the candidate entry is silently discarded — the scan result
from the block's start equals the scan result of the continuation right
after the block's deck slot, with no entry emitted for the block — and on
the spec's three-field example the scan resumes at the next placement-start
line and still emits the following entry. -/
theorem short_stats_line_discards_entry :
    (∀ (lines : List String) (fuel i : Nat) (h : i < lines.length)
        (i1 i2 i3 i4 : Nat),
        isAllDigits (stripS lines[i]) = true →
        i1 = skipBlank lines (i+1) → i2 = skipBlank lines (i1+1) →
        i3 = skipBlank lines (i2+1) → i4 = skipBlank lines (i3+1) →
        ∀ (h1 : i1 < lines.length) (h2 : i2 < lines.length)
          (h3 : i3 < lines.length),
        (statsFields (stripS (lines.get ⟨i3, h3⟩))).length < 4 →
        scanGo lines (fuel+1) i = scanGo lines fuel (i4+1))
    ∧ (parse_multiline_format demoC3).map Entry.Name = ["Misty"] := by
  refine ⟨?_, by decide⟩
  intro lines fuel i h i1 i2 i3 i4 hd e1 e2 e3 e4 h1 h2 h3 hlen
  subst e1; subst e2; subst e3; subst e4
  have hne : stripS lines[i] ≠ "" := isAllDigits_ne_empty hd
  have hmk : isMarker (stripS lines[i]) = false := isMarker_of_digits hd
  simp only [scanGo]
  rw [dif_pos h, if_neg hne, if_neg (by rw [hmk]; exact Bool.noConfusion),
    if_pos hd, dif_pos h1, dif_pos h2, dif_pos h3]
  rcases hsf : statsFields (stripS (lines.get ⟨skipBlank lines
      (skipBlank lines (skipBlank lines (i+1) + 1) + 1), h3⟩)) with
    _ | ⟨p1, _ | ⟨p2, _ | ⟨p3, _ | ⟨p4, rest⟩⟩⟩⟩
  · rfl
  · rfl
  · rfl
  · rfl
  · rw [hsf] at hlen
    simp only [List.length_cons] at hlen
    omega

theorem short_stats_line_discards_entry_witness :
    scanGo demoC3 13 1 = scanGo demoC3 12 6 :=
  short_stats_line_discards_entry.1 demoC3 12 1 (by decide) 2 3 4 5
    (by decide) (by decide) (by decide) (by decide) (by decide)
    (by decide) (by decide) (by decide) (by decide)

/-! ### C6: the group-by-deck win-rate aggregation -/

/-- C6 counterexample: with one entry of one win and one loss, the stored
win rate is `50` — the ratio multiplied by 100 — not the claimed ratio
`(1 + 0.5·0) / (1 + 1 + 0) = 1/2`. -/
theorem deck_win_rate_percent_cex :
    (deck_stats [demoEntry6]).map DeckStat.win_rate = [50]
    ∧ ((1 : ℚ) + (1/2) * 0) / ((1 : ℚ) + 1 + 0) ≠ 50 := by
  constructor
  · show [(mkDeckStat [demoEntry6] "DeckA").win_rate] = [50]
    simp only [mkDeckStat, demoEntry6]
    norm_num [List.filter]
  · norm_num

/-- C6 amended: every row of the group-by-deck aggregation carries the
summed wins/losses/ties of its deck's entries and their total, and its win
rate is the ratio `(total_wins + 0.5·total_ties) / total_matches` expressed
as a percentage (multiplied by 100) when the deck group has matches, and `0`
when the sum of wins, losses and ties is zero. -/
theorem deck_win_rate_formula (es : List Entry) (ds : DeckStat)
    (hmem : ds ∈ deck_stats es) :
    ds.total_matches = ds.total_wins + ds.total_losses + ds.total_ties
    ∧ ds.total_wins = ((es.filter (fun e => e.Deck == ds.Deck)).map Entry.Wins).sum
    ∧ ds.total_losses = ((es.filter (fun e => e.Deck == ds.Deck)).map Entry.Losses).sum
    ∧ ds.total_ties = ((es.filter (fun e => e.Deck == ds.Deck)).map Entry.Ties).sum
    ∧ (ds.total_matches = 0 → ds.win_rate = 0)
    ∧ (0 < ds.total_matches →
        ds.win_rate = ((ds.total_wins : ℚ) + (1/2) * (ds.total_ties : ℚ))
          / (ds.total_matches : ℚ) * 100) := by
  rcases List.mem_map.mp hmem with ⟨d, hd, rfl⟩
  refine ⟨rfl, rfl, rfl, rfl, ?_, ?_⟩
  · intro h0
    simp only [mkDeckStat] at h0 ⊢
    rw [if_neg (by omega)]
  · intro hpos
    simp only [mkDeckStat] at hpos ⊢
    rw [if_pos hpos]

theorem deck_win_rate_formula_witness :
    (mkDeckStat [demoEntry6] "DeckA").total_matches =
      (mkDeckStat [demoEntry6] "DeckA").total_wins +
        (mkDeckStat [demoEntry6] "DeckA").total_losses +
        (mkDeckStat [demoEntry6] "DeckA").total_ties :=
  (deck_win_rate_formula [demoEntry6] (mkDeckStat [demoEntry6] "DeckA")
    (by rw [show deck_stats [demoEntry6] = [mkDeckStat [demoEntry6] "DeckA"] from rfl]
        exact List.mem_singleton_self _)).1

/-! ### The cursor motion of the scan -/

lemma skipBlank_ge (lines : List String) (i : Nat) : i ≤ skipBlank lines i :=
  Nat.le_add_right i _

lemma skipBlank_le (lines : List String) (i : Nat) (h : i ≤ lines.length) :
    skipBlank lines i ≤ lines.length := by
  have h1 : ((lines.drop i).takeWhile (fun s => stripS s == "")).length ≤
      (lines.drop i).length := (List.takeWhile_sublist _).length_le
  rw [List.length_drop] at h1
  unfold skipBlank
  omega

lemma scanGo_fuel_step (lines : List String) :
    ∀ (fuel i : Nat), lines.length + 1 - i ≤ fuel →
      scanGo lines (fuel+1) i = scanGo lines fuel i := by
  intro fuel
  induction fuel with
  | zero =>
    intro i hb
    have hi : ¬ i < lines.length := by omega
    conv_lhs => rw [scanGo]
    rw [dif_neg hi, scanGo]
  | succ fuel ih =>
    intro i hb
    by_cases hi : i < lines.length
    · have hb1 : lines.length + 1 - (i+1) ≤ fuel := by omega
      have g1 : i + 1 ≤ skipBlank lines (i+1) := skipBlank_ge lines (i+1)
      have g2 : skipBlank lines (i+1) + 1 ≤
          skipBlank lines (skipBlank lines (i+1) + 1) := skipBlank_ge lines _
      have g3 : skipBlank lines (skipBlank lines (i+1) + 1) + 1 ≤
          skipBlank lines (skipBlank lines (skipBlank lines (i+1) + 1) + 1) :=
        skipBlank_ge lines _
      have g4 : skipBlank lines (skipBlank lines (skipBlank lines (i+1) + 1) + 1) + 1 ≤
          skipBlank lines (skipBlank lines (skipBlank lines (skipBlank lines (i+1) + 1) + 1) + 1) :=
        skipBlank_ge lines _
      conv_lhs => rw [scanGo]
      conv_rhs => rw [scanGo]
      rw [dif_pos hi, dif_pos hi]
      dsimp only
      split
      · exact ih (i+1) hb1
      · split
        · exact ih (i+1) hb1
        · split
          · split
            · split
              · split
                · split
                  · exact congrArg _ (ih _ (by omega))
                  · exact ih _ (by omega)
                · rfl
              · rfl
            · rfl
          · exact ih (i+1) hb1
    · conv_lhs => rw [scanGo]
      rw [dif_neg hi]
      conv_rhs => rw [scanGo]
      rw [dif_neg hi]

lemma scanGo_fuel_irrelevant (lines : List String) (fuel i : Nat)
    (hb : lines.length + 1 - i ≤ fuel) :
    scanGo lines fuel i = scanGo lines (lines.length + 1 - i) i := by
  induction fuel, hb using Nat.le_induction with
  | base => rfl
  | succ f hf ih => rw [scanGo_fuel_step lines f i hf, ih]

/-- C8: the scan is strictly forward-only and single-pass — the blank-line
look-ahead never moves the cursor backwards and never past the end of the
input, and the scan loop needs at most `lines.length + 1 - i` iterations from
cursor `i`: any fuel at least that bound gives the same (therefore
terminating) result, and any fuel of at least `lines.length + 1` computes
`parse_multiline_format`. -/
theorem scan_forward_single_pass :
    (∀ (lines : List String) (i : Nat), i ≤ skipBlank lines i)
    ∧ (∀ (lines : List String) (i : Nat), i ≤ lines.length →
        skipBlank lines i ≤ lines.length)
    ∧ (∀ (lines : List String) (fuel i : Nat), lines.length + 1 - i ≤ fuel →
        scanGo lines fuel i = scanGo lines (lines.length + 1 - i) i)
    ∧ (∀ (lines : List String) (fuel : Nat), lines.length + 1 ≤ fuel →
        scanGo lines fuel (findHeader lines + 1) = parse_multiline_format lines) := by
  refine ⟨skipBlank_ge, skipBlank_le, scanGo_fuel_irrelevant, ?_⟩
  intro lines fuel hf
  rw [parse_multiline_format,
    scanGo_fuel_irrelevant lines fuel _ (by omega),
    scanGo_fuel_irrelevant lines (lines.length + 1) _ (by omega)]

theorem scan_forward_single_pass_witness :
    skipBlank demoLines 6 ≤ demoLines.length
    ∧ scanGo demoLines 99 0 = scanGo demoLines (demoLines.length + 1 - 0) 0
    ∧ scanGo demoLines 20 (findHeader demoLines + 1) = parse_multiline_format demoLines :=
  ⟨scan_forward_single_pass.2.1 demoLines 6 (by decide),
   scan_forward_single_pass.2.2.1 demoLines 99 0 (by decide),
   scan_forward_single_pass.2.2.2 demoLines 20 (by decide)⟩

/-! ### C7: emitted entries have Placement, Name and Country populated -/

lemma takeWhile_stop (p : String → Bool) :
    ∀ (l : List String) (x : String),
      l[(l.takeWhile p).length]? = some x → p x = false := by
  intro l
  induction l with
  | nil =>
    intro x hx
    simp at hx
  | cons a as ih =>
    intro x hx
    by_cases hp : p a = true
    · rw [List.takeWhile_cons_of_pos hp] at hx
      simp only [List.length_cons, List.getElem?_cons_succ] at hx
      exact ih x hx
    · have hp' : p a = false := by
        cases hpa : p a
        · rfl
        · exact absurd hpa hp
      rw [List.takeWhile_cons_of_neg hp] at hx
      simp only [List.length_nil, List.getElem?_cons_zero] at hx
      cases hx
      exact hp'

lemma skipBlank_nonblank (lines : List String) (j : Nat)
    (h : skipBlank lines j < lines.length) :
    stripS (lines.get ⟨skipBlank lines j, h⟩) ≠ "" := by
  have hx : lines[skipBlank lines j]? = some (lines.get ⟨skipBlank lines j, h⟩) :=
    List.getElem?_eq_getElem h
  have hd : (lines.drop j)[((lines.drop j).takeWhile (fun s => stripS s == "")).length]? =
      some (lines.get ⟨skipBlank lines j, h⟩) := by
    rw [List.getElem?_drop]
    exact hx
  have hstop := takeWhile_stop (fun s => stripS s == "") (lines.drop j) _ hd
  have hstop2 : (stripS (lines.get ⟨skipBlank lines j, h⟩) == "") = false := hstop
  intro h0
  rw [h0] at hstop2
  simp at hstop2

lemma scanGo_mem_fields (lines : List String) :
    ∀ (fuel i : Nat) (e : Entry), e ∈ scanGo lines fuel i →
      e.Placement ≠ "" ∧ e.Name ≠ "" ∧ e.Country ≠ "" := by
  intro fuel
  induction fuel with
  | zero =>
    intro i e he
    rw [scanGo] at he
    exact absurd he (List.not_mem_nil e)
  | succ fuel ih =>
    intro i e he
    rw [scanGo] at he
    split at he
    · dsimp only at he
      split at he
      · exact ih _ _ he
      · split at he
        · exact ih _ _ he
        · split at he
          · rename_i hi hline hmarker hdig
            split at he
            · rename_i h1
              split at he
              · rename_i h2
                split at he
                · rename_i h3
                  split at he
                  · rcases List.mem_cons.mp he with rfl | hrest
                    · exact ⟨hline, skipBlank_nonblank lines (i+1) h1,
                        skipBlank_nonblank lines (skipBlank lines (i+1) + 1) h2⟩
                    · exact ih _ _ hrest
                  · exact ih _ _ he
                · exact absurd he (List.not_mem_nil e)
              · exact absurd he (List.not_mem_nil e)
            · exact absurd he (List.not_mem_nil e)
          · exact ih _ _ he
    · exact absurd he (List.not_mem_nil e)

/-- C7: every entry emitted by `parse_multiline_format`, on every input,
has non-empty Placement, Name and Country (Deck and the stats-derived fields
may be defaulted or empty, as the `Deck := ""` default and the zero/`none`
defaults of `parse_record`/`parse_percentage` show). -/
theorem emitted_entry_fields_nonempty (lines : List String) (e : Entry)
    (he : e ∈ parse_multiline_format lines) :
    e.Placement ≠ "" ∧ e.Name ≠ "" ∧ e.Country ≠ "" :=
  scanGo_mem_fields lines _ _ e he

theorem emitted_entry_fields_nonempty_witness :
    demoTinyEntry.Placement ≠ "" ∧ demoTinyEntry.Name ≠ ""
      ∧ demoTinyEntry.Country ≠ "" :=
  emitted_entry_fields_nonempty demoTiny demoTinyEntry (by decide)

/-! ### C9: totality — no out-of-range access, no exception -/


lemma scanGoE_eq (lines : List String) :
    ∀ (fuel i : Nat), scanGoE lines fuel i = some (scanGo lines fuel i) := by
  intro fuel
  induction fuel with
  | zero =>
    intro i
    rw [scanGoE, scanGo]
  | succ fuel ih =>
    intro i
    rw [scanGoE, scanGo]
    by_cases hi : i < lines.length
    · rw [if_pos hi, dif_pos hi, List.getElem?_eq_getElem hi]
      dsimp only
      by_cases hline : stripS lines[i] = ""
      · rw [if_pos hline, if_pos hline]
        exact ih (i+1)
      · rw [if_neg hline, if_neg hline]
        by_cases hmk : isMarker (stripS lines[i]) = true
        · rw [if_pos hmk, if_pos hmk]
          exact ih (i+1)
        · rw [if_neg hmk, if_neg hmk]
          by_cases hdig : isAllDigits (stripS lines[i]) = true
          · rw [if_pos hdig, if_pos hdig]
            by_cases h1 : skipBlank lines (i+1) < lines.length
            · rw [if_pos h1, dif_pos h1, List.getElem?_eq_getElem h1]
              dsimp only
              by_cases h2 : skipBlank lines (skipBlank lines (i+1) + 1) < lines.length
              · rw [if_pos h2, dif_pos h2, List.getElem?_eq_getElem h2]
                dsimp only
                by_cases h3 : skipBlank lines (skipBlank lines
                    (skipBlank lines (i+1) + 1) + 1) < lines.length
                · rw [if_pos h3, dif_pos h3, List.getElem?_eq_getElem h3]
                  dsimp only
                  by_cases h4 : skipBlank lines (skipBlank lines (skipBlank lines
                      (skipBlank lines (i+1) + 1) + 1) + 1) < lines.length
                  · rw [if_pos h4, dif_pos h4, List.getElem?_eq_getElem h4]
                    dsimp only
                    rw [ih]
                    dsimp only
                    split <;> rfl
                  · rw [if_neg h4, dif_neg h4]
                    dsimp only
                    rw [ih]
                    dsimp only
                    split <;> rfl
                · rw [if_neg h3, dif_neg h3]
              · rw [if_neg h2, dif_neg h2]
            · rw [if_neg h1, dif_neg h1]
          · rw [if_neg hdig, if_neg hdig]
            exact ih (i+1)
    · rw [if_neg hi, dif_neg hi]

/-- C9: `parse_multiline_format` is total and access-safe — on every
finite list of strings, with no precondition on their contents, the
fallible-access variant of the parser (where an out-of-range line access
would abort with `none`) runs to completion and returns `some` of the
parser's (possibly empty) entry list, so no line access is ever out of range
and no exception is raised. -/
theorem parse_total_no_out_of_range (lines : List String) :
    parse_multiline_formatE lines = some (parse_multiline_format lines) :=
  scanGoE_eq lines _ _

/-! ### Helper lemmas about stripping and blank strings -/

lemma stripList_eq_nil_iff (l : List Char) :
    stripList l = [] ↔ ∀ c ∈ l, pyIsSpace c = true := by
  unfold stripList
  constructor
  · intro h c hc
    rw [List.reverse_eq_nil_iff, List.dropWhile_eq_nil_iff] at h
    by_cases hcl : c ∈ l.dropWhile pyIsSpace
    · exact h c (List.mem_reverse.mpr hcl)
    · have hct : c ∈ l.takeWhile pyIsSpace := by
        have hsplit := List.takeWhile_append_dropWhile (p := pyIsSpace) (l := l)
        rw [← hsplit] at hc
        rcases List.mem_append.mp hc with h1 | h1
        · exact h1
        · exact absurd h1 hcl
      exact List.mem_takeWhile_imp hct
  · intro h
    have h1 : l.dropWhile pyIsSpace = [] :=
      List.dropWhile_eq_nil_iff.mpr (fun x hx => h x hx)
    rw [h1]
    rfl

lemma stripS_empty_iff (s : String) :
    stripS s = "" ↔ ∀ c ∈ s.data, pyIsSpace c = true := by
  rw [← stripList_eq_nil_iff]
  constructor
  · intro h
    have h2 : (String.mk (stripList s.data)).data = ("" : String).data :=
      congrArg String.data h
    simpa using h2
  · intro h
    show String.mk (stripList s.data) = ""
    rw [h]

lemma removeDrop_of_spaces : ∀ l : List Char,
    (∀ c ∈ l, pyIsSpace c = true) → removeDrop l = l := by
  intro l
  induction l using removeDrop.induct with
  | case1 rest ih =>
    intro h
    have hd : pyIsSpace 'd' = true := h 'd' (by simp)
    simp [pyIsSpace] at hd
  | case2 c rest hne ih =>
    intro h
    rw [removeDrop]
    · rw [ih fun x hx => h x (List.mem_cons_of_mem _ hx)]
    · exact hne
  | case3 => intro _; rfl

lemma runs_nil_of_blank (s : String) (hb : s = "" ∨ stripS s = "") :
    digitRuns (stripList (removeDrop s.data)) = [] := by
  rcases hb with rfl | hb
  · rfl
  · have hsp := (stripS_empty_iff s).mp hb
    rw [removeDrop_of_spaces _ hsp, (stripList_eq_nil_iff _).mpr hsp]
    rfl

/-! ### C2: wins/losses/ties from the digit runs -/

/-- C2: `parse_record` decides wins/losses/ties from the maximal digit
runs it extracts (from the `' drop'`-free, stripped text, as §4.1 of the spec
describes): three or more runs give the first three, exactly two give the two
plus zero ties, and fewer than two give all zeros; the three concrete
examples of the spec evaluate as stated. -/
theorem parse_record_digit_run_cases :
    (∀ (s : String) (a b c : List Char) (rest : List (List Char)),
        digitRuns (stripList (removeDrop s.data)) = a :: b :: c :: rest →
        parse_record s = (digitsToNat a, digitsToNat b, digitsToNat c, s))
    ∧ (∀ (s : String) (a b : List Char),
        digitRuns (stripList (removeDrop s.data)) = [a, b] →
        parse_record s = (digitsToNat a, digitsToNat b, 0, s))
    ∧ (∀ s : String, (digitRuns (stripList (removeDrop s.data))).length ≤ 1 →
        (parse_record s).1 = 0 ∧ (parse_record s).2.1 = 0 ∧ (parse_record s).2.2.1 = 0)
    ∧ parse_record "15 - 2 - 1" = (15, 2, 1, "15 - 2 - 1")
    ∧ parse_record "7 - 5 - 0 drop" = (7, 5, 0, "7 - 5 - 0 drop")
    ∧ parse_record "" = (0, 0, 0, "") := by
  refine ⟨?_, ?_, ?_, by decide, by decide, by decide⟩
  · intro s a b c rest h
    have hb : ¬(s = "" ∨ stripS s = "") := fun hb => by
      rw [runs_nil_of_blank s hb] at h
      exact List.noConfusion h
    rw [parse_record, if_neg hb, h]
  · intro s a b h
    have hb : ¬(s = "" ∨ stripS s = "") := fun hb => by
      rw [runs_nil_of_blank s hb] at h
      exact List.noConfusion h
    rw [parse_record, if_neg hb, h]
  · intro s h
    by_cases hb : s = "" ∨ stripS s = ""
    · rw [parse_record, if_pos hb]
      exact ⟨rfl, rfl, rfl⟩
    · rw [parse_record, if_neg hb]
      rcases hr : digitRuns (stripList (removeDrop s.data)) with _ | ⟨a, _ | ⟨b, t⟩⟩
      · exact ⟨rfl, rfl, rfl⟩
      · exact ⟨rfl, rfl, rfl⟩
      · rw [hr] at h
        simp at h

theorem parse_record_digit_run_cases_witness :
    parse_record "15 - 2 - 1" = (15, 2, 1, "15 - 2 - 1")
    ∧ parse_record "9 - 8" = (9, 8, 0, "9 - 8")
    ∧ (parse_record "x7x").2.2.1 = 0 :=
  ⟨parse_record_digit_run_cases.1 "15 - 2 - 1" ['1', '5'] ['2'] ['1'] [] (by decide),
   parse_record_digit_run_cases.2.1 "9 - 8" ['9'] ['8'] (by decide),
   (parse_record_digit_run_cases.2.2.1 "x7x" (by decide)).2.2⟩

/-! ### C5: the fourth component of `parse_record` -/

/-- C5 counterexample: on the whitespace-only input `" "` the fourth
component of `parse_record` is `""`, not the untouched original text. -/
theorem parse_record_fourth_blank_cex : (parse_record " ").2.2.2 ≠ " " := by decide

/-- C5 amended: the fourth component of `parse_record` is the untouched
original input, except when the input is empty or whitespace-only, in which
case it is the empty string. -/
theorem parse_record_fourth_component (s : String) :
    (parse_record s).2.2.2 = if stripS s = "" then "" else s := by
  by_cases hb : s = "" ∨ stripS s = ""
  · rw [parse_record, if_pos hb]
    rcases hb with rfl | hb
    · rfl
    · rw [if_pos hb]
  · have hs := hb
    push_neg at hs
    rw [parse_record, if_neg hb, if_neg hs.2]
    rcases hr : digitRuns (stripList (removeDrop s.data)) with _ | ⟨a, _ | ⟨b, _ | ⟨c, t⟩⟩⟩ <;>
      rfl

/-! ### C4: `parse_percentage` -/

/-- C4 counterexample: on `"5%9"` the code removes the interior percent
sign and converts `"59"`, while stripping only a trailing percent sign leaves
an unconvertible token, so the claim's description fails on this input. -/
theorem parse_percentage_percent_cex :
    parse_percentage "5%9" = some 59 ∧ parse_percentage_claimed "5%9" = none := by
  exact ⟨by decide, by decide⟩

lemma filter_eq_removePct : ∀ l : List Char,
    l.filter (fun c => c != '%') = removePct l := by
  intro l
  induction l with
  | nil => rfl
  | cons c cs ih =>
    by_cases hc : c = '%'
    · subst hc
      simp [removePct, ih]
    · simp [removePct, hc, ih]

lemma blank_iff (s : String) :
    (s = "" ∨ stripS s = "") ↔ s.data.all pyIsSpace = true := by
  rw [List.all_eq_true]
  constructor
  · rintro (rfl | hb)
    · intro c hc
      simp at hc
    · exact fun c hc => (stripS_empty_iff s).mp hb c hc
  · intro h
    exact Or.inr ((stripS_empty_iff s).mpr h)

/-- C4 amended: `parse_percentage` removes every percent sign (not only a
trailing one), strips the result, and attempts numeric conversion; blank
input and conversion failure give the empty value `none`, which is distinct
from `0.0`; the spec's three examples evaluate as stated. -/
theorem parse_percentage_strips_all_percents :
    (∀ s : String, parse_percentage s =
      if s.data.all pyIsSpace then none
      else pyFloatList (stripList (removePct s.data)))
    ∧ parse_percentage "59.82%" = some (mkRat 5982 100)
    ∧ parse_percentage "" = none
    ∧ parse_percentage "n/a" = none
    ∧ parse_percentage "" ≠ some 0 := by
  refine ⟨?_, by decide, by decide, by decide, by decide⟩
  intro s
  rw [parse_percentage]
  by_cases hb : s = "" ∨ stripS s = ""
  · rw [if_pos hb, if_pos ((blank_iff s).mp hb)]
  · rw [if_neg hb, if_neg (fun h => hb ((blank_iff s).mpr h)), filter_eq_removePct]
